import Mathlib

/-!
Verification of the pika console logger (TypeScript) against its
natural-language specification.  The definitions below are a shallow
embedding of the latest source variant (`src/index.ts` using `utils.ts`,
i.e. the snapshot with `useColors`, `clone`, `[REDACTED]` and
append-semantics for `secrets`).  Host-environment facilities
(`process.env`, `process.stdout.isTTY`, stack introspection,
`JSON.stringify`) are modelled explicitly where the code consumes them.
-/

/-! ## Severity levels (`Level` in utils.ts) -/

def Level.TRACE : Nat := 0

def Level.DEBUG : Nat := 1

def Level.INFO : Nat := 2

def Level.WARN : Nat := 3

def Level.ERROR : Nat := 4

def Level.FATAL : Nat := 5

/-! ## Figures and colour codes (`Figure`, `Colour` in utils.ts) -/

def Figure.TICK : String := "✔"

def Figure.INFO : String := "ℹ"

def Figure.CROSS : String := "✖"

def Figure.WARNING : String := "⚠"

def Figure.ELLIPSIS : String := "…"

def Figure.POINTER_SMALL : String := "›"

def Colour.RED : String := "\x1b[31m"

def Colour.BOLD : String := "\x1b[1m"

def Colour.GREY : String := "\x1b[90m"

def Colour.BLUE : String := "\x1b[34m"

def Colour.CYAN : String := "\x1b[36m"

def Colour.RESET : String := "\x1b[0m"

def Colour.GREEN : String := "\x1b[32m"

def Colour.YELLOW : String := "\x1b[33m"

def Colour.MAGENTA : String := "\x1b[35m"

def Colour.UNDERLINE : String := "\x1b[4m"

/-- `colour(input, ...colours)` from utils.ts:
`colours.join("") + input + Colour.RESET`. -/
def colour (input : String) (colours : List String) : String :=
  String.join colours ++ input ++ Colour.RESET

/-! ## Output streams and log type descriptors -/

/-- The two process write streams a descriptor can route to. -/
inductive OutStream where
  | stdout
  | stderr
deriving DecidableEq

/-- `LogType` from utils.ts. -/
structure LogType where
  label : String
  level : Nat
  badge : String
  colour : String
  stream : OutStream

/-- `createLogType` from utils.ts (stream defaults to stdout at the
call sites below, written explicitly). -/
def createLogType (label : String) (level : Nat) (badge : String)
    (colour : String) (stream : OutStream) : LogType :=
  ⟨label, level, badge, colour, stream⟩

def TYPES.success : LogType :=
  createLogType "success" Level.INFO Figure.TICK Colour.GREEN OutStream.stdout

def TYPES.warn : LogType :=
  createLogType "warn" Level.WARN Figure.WARNING Colour.YELLOW OutStream.stdout

def TYPES.error : LogType :=
  createLogType "error" Level.ERROR Figure.CROSS Colour.RED OutStream.stderr

def TYPES.fatal : LogType :=
  createLogType "fatal" Level.FATAL Figure.CROSS Colour.RED OutStream.stderr

def TYPES.trace : LogType :=
  createLogType "trace" Level.TRACE Figure.ELLIPSIS Colour.BLUE OutStream.stdout

def TYPES.debug : LogType :=
  createLogType "debug" Level.DEBUG Figure.INFO Colour.CYAN OutStream.stdout

def TYPES.info : LogType :=
  createLogType "info" Level.INFO Figure.INFO Colour.BLUE OutStream.stdout

/-- `Object.values(TYPES)` in insertion order of the default export. -/
def TYPES.all : List LogType :=
  [TYPES.success, TYPES.warn, TYPES.error, TYPES.fatal,
   TYPES.trace, TYPES.debug, TYPES.info]

/-! ## Environment-dependent colour default (`shouldUseColors`) -/

/-- The environment signals and host facts consumed by the constructor:
`process.env.NO_COLOR`, `process.env.NODE_DISABLE_COLORS`,
`process.env.FORCE_COLOR` (each an optionally-set string variable),
`process.stdout.isTTY` (boolean or undefined), and the caller name that
stack introspection would derive (none when introspection yields
nothing, making `#getFilename` fall back to "anonymous"). -/
structure Ambient where
  noColorEnv : Option String
  nodeDisableColorsEnv : Option String
  forceColorEnv : Option String
  stdoutIsTTY : Option Bool
  callerName : Option String

/-- JavaScript truthiness of an optionally-set environment string: an
unset variable and the empty string are falsy. -/
def jsTruthy : Option String → Bool
  | none => false
  | some s => !s.isEmpty

/-- `shouldUseColors()` from utils.ts. -/
def shouldUseColors (amb : Ambient) : Bool :=
  if jsTruthy amb.noColorEnv || jsTruthy amb.nodeDisableColorsEnv then false
  else if jsTruthy amb.forceColorEnv then true
  else amb.stdoutIsTTY.getD false

/-- `#getFilename()`: best-effort stack introspection, modelled as the
ambient caller name with the code's "anonymous" fallback. -/
def getFilename (amb : Ambient) : String :=
  amb.callerName.getD "anonymous"

/-! ## JSON values and `JSON.stringify` (host builtin, modelled for the
payload value shapes the formatter receives) -/

inductive JValue where
  | str (s : String)
  | num (n : Int)
  | bool (b : Bool)
  | null
  | obj (fields : List (String × JValue))

def jsonEscapeChar (c : Char) : String :=
  if c = '"' then "\\\""
  else if c = '\\' then "\\\\"
  else if c = '\n' then "\\n"
  else if c = '\t' then "\\t"
  else if c = '\r' then "\\r"
  else String.singleton c

def jsonQuote (s : String) : String :=
  "\"" ++ String.join (s.data.map jsonEscapeChar) ++ "\""

mutual

def jsonStringify : JValue → String
  | .str s => jsonQuote s
  | .num n => toString n
  | .bool b => if b then "true" else "false"
  | .null => "null"
  | .obj fs => "\x7b" ++ jsonFields fs ++ "\x7d"

def jsonFields : List (String × JValue) → String
  | [] => ""
  | [kv] => jsonQuote kv.1 ++ ":" ++ jsonStringify kv.2
  | kv :: rest => jsonQuote kv.1 ++ ":" ++ jsonStringify kv.2 ++ "," ++ jsonFields rest

end

/-! ## Error values and log-call arguments -/

/-- A JavaScript `Error`-like value: name, message, optional stack. -/
structure JsError where
  name : String
  message : String
  stack : Option String

/-- `String(error)` per `Error.prototype.toString`. -/
def JsError.toStr (e : JsError) : String :=
  if e.name = "" then e.message
  else if e.message = "" then e.name
  else e.name ++ ": " ++ e.message

/-- One variadic argument of a logging call, resolved by runtime shape:
an Error instance, a plain object (`typeof === "object"`, not null, not
Date, not RegExp), a Date, a RegExp, or a string/primitive.  Each of
the last three carries its `String(...)` coercion. -/
inductive LogArg where
  | err (e : JsError)
  | object (fields : List (String × JValue))
  | date (r : String)
  | regexp (r : String)
  | prim (r : String)

/-- `String(arg)` for a log argument. -/
def jsString : LogArg → String
  | .err e => e.toStr
  | .object _ => "[object Object]"
  | .date r => r
  | .regexp r => r
  | .prim r => r

/-! ## String utilities mirroring the JS builtins the code uses -/

/-- `" ".repeat(n)`. -/
def spaces (n : Nat) : String :=
  ⟨List.replicate n ' '⟩

/-- `array.join(sep)`. -/
def joinSep (sep : String) : List String → String
  | [] => ""
  | [x] => x
  | x :: xs => x ++ sep ++ joinSep sep xs

/-- `string.split(c)` for a single-character separator, on the
underlying character list.  Always returns a non-empty list. -/
def splitChar (sep : Char) : List Char → List (List Char)
  | [] => [[]]
  | c :: cs =>
    match splitChar sep cs with
    | [] => [[]]
    | h :: t => if c = sep then [] :: h :: t else (c :: h) :: t

/-- One pass of `string.replaceAll(pat, rep)` for a non-empty pattern:
scan left to right, replacing each leftmost non-overlapping occurrence.
`fuel` bounds the recursion; any `fuel ≥ l.length` computes the real
result (each step consumes at least one input character). -/
def replFuel (pat rep : List Char) : Nat → List Char → List Char
  | _, [] => []
  | 0, rest => rest
  | fuel + 1, c :: cs =>
    if pat.isPrefixOf (c :: cs) then
      rep ++ replFuel pat rep fuel (cs.drop (pat.length - 1))
    else
      c :: replFuel pat rep fuel cs

/-- `string.replaceAll(pat, rep)`.  For the empty pattern JavaScript
inserts the replacement at every position including both ends. -/
def jsReplaceAll (s pat rep : String) : String :=
  if pat.data = [] then
    ⟨rep.data ++ (s.data.map (fun c => c :: rep.data)).flatten⟩
  else
    ⟨replFuel pat.data rep.data s.data.length s.data⟩

/-! ## The logger instance (`Pika`) -/

/-- The immutable per-instance configuration (the private fields
`#scope`, `#level`, `#longest`, `#useColors`, `#secrets`). -/
structure Pika where
  scope : String
  level : Nat
  longest : Nat
  useColors : Bool
  secrets : List String
deriving DecidableEq

/-- `Partial<PikaOptions>`: each recognized option may be absent. -/
structure PikaOpts where
  scope : Option String
  level : Option Nat
  secrets : Option (List String)
  useColors : Option Bool

/-- `#getLongestLabel()`: `Math.max(...labels.map(length).filter(> 0), 0)`. -/
def getLongestLabel : Nat :=
  ((TYPES.all.map (fun t => t.label.length)).filter
      (fun n => decide (0 < n))).foldl max 0

/-- The constructor `new Pika(options)`. -/
def mkPika (opts : PikaOpts) (amb : Ambient) : Pika :=
  ⟨opts.scope.getD (getFilename amb),
   opts.level.getD Level.INFO,
   getLongestLabel,
   opts.useColors.getD (shouldUseColors amb),
   opts.secrets.getD []⟩

/-- The `options` getter: every field comes back present. -/
def Pika.options (p : Pika) : PikaOpts :=
  ⟨some p.scope, some p.level, some p.secrets, some p.useColors⟩

/-- Merge of two partial option records by JS object spread
`{...base, ...over}`: a field present in `over` wins. -/
def orOver {α : Type} (over base : Option α) : Option α :=
  match over with
  | some v => some v
  | none => base

def mergeOpts (base over : PikaOpts) : PikaOpts :=
  ⟨orOver over.scope base.scope,
   orOver over.level base.level,
   orOver over.secrets base.secrets,
   orOver over.useColors base.useColors⟩

/-- Method-call semantics: the receiver is threaded explicitly, so a
call returns (result, receiver afterwards).  The bodies below translate
the source methods, whose fields are `readonly` and which perform no
assignment, hence return the receiver unchanged. -/
def Pika.scopeCall (p : Pika) (s : String) (amb : Ambient) : Pika × Pika :=
  (mkPika ⟨some s, p.options.level, p.options.secrets, p.options.useColors⟩ amb, p)

def Pika.levelCall (p : Pika) (lv : Nat) (amb : Ambient) : Pika × Pika :=
  (mkPika ⟨p.options.scope, some lv, p.options.secrets, p.options.useColors⟩ amb, p)

/-- `secrets(...secrets)` passes `[...this.#secrets, ...secrets]`. -/
def Pika.secretsCall (p : Pika) (names : List String) (amb : Ambient) : Pika × Pika :=
  (mkPika ⟨p.options.scope, p.options.level, some (p.secrets ++ names),
      p.options.useColors⟩ amb, p)

/-- `clone(overrides)` builds from `{...this.options, ...overrides}`. -/
def Pika.cloneCall (p : Pika) (ov : PikaOpts) (amb : Ambient) : Pika × Pika :=
  (mkPika (mergeOpts p.options ov) amb, p)

/-- `#filterSecrets(input)`. -/
def filterSecrets (secrets : List String) (input : String) : String :=
  if secrets.length = 0 then input
  else secrets.foldl (fun sanitized secret => jsReplaceAll sanitized secret "[REDACTED]") input

/-- `#formatScope()`. -/
def formatScope (p : Pika) : String :=
  "[" ++ p.scope ++ "]"

/-- `#getMeta()`: note the source wraps the items with `colour(...)`
directly, not with `#applyColor`. -/
def getMeta (p : Pika) : List String :=
  let meta := [formatScope p]
  if meta.length > 0 then
    (meta ++ [Figure.POINTER_SMALL]).map (fun item => colour item [Colour.GREY])
  else meta

/-- `#applyColor(text, ...colors)`. -/
def applyColor (p : Pika) (text : String) (colors : List String) : String :=
  if p.useColors then colour text colors else text

/-- `#formatError(error)`: `!error.stack` is true for an absent and for
an empty stack. -/
def formatError (p : Pika) (e : JsError) : String :=
  match e.stack with
  | none => e.message
  | some st =>
    if st = "" then e.message
    else
      let lines := splitChar '\n' st.data
      applyColor p ⟨lines.headD []⟩ [Colour.UNDERLINE] ++ "\n" ++
        applyColor p (joinSep "\n" (lines.tail.map (fun l => (⟨l⟩ : String))))
          [Colour.GREY]

/-- `#formatObject(obj)`. -/
def formatObject (fields : List (String × JValue)) : String :=
  joinSep ", " (fields.map (fun kv => kv.1 ++ " = " ++ jsonStringify kv.2))

/-- The parts pushed by `#buildMessage` before the payload: meta, then
the coloured badge (with its baked-in trailing space), then the
coloured underlined label padded to the longest label
(`Math.max(0, longest - label.length)` is Nat subtraction here). -/
def msgParts (p : Pika) (t : LogType) : List String :=
  getMeta p ++
    [applyColor p (t.badge ++ " ") [t.colour],
     applyColor p t.label [t.colour, Colour.UNDERLINE] ++
       spaces (p.longest - t.label.length)]

/-- The payload part pushed by `#buildMessage` for a non-empty argument
list, dispatching on the shape of the first argument. -/
def msgPayload (p : Pika) (first : LogArg) (rest : List LogArg) : String :=
  match first with
  | .err e => formatError p e
  | .object fields => formatObject fields
  | _ => applyColor p (joinSep " " ((first :: rest).map jsString)) [Colour.GREY]

/-- `#buildMessage(type, ...args)`. -/
def buildMessage (p : Pika) (t : LogType) (args : List LogArg) : String :=
  match args with
  | [] => joinSep " " (msgParts p t)
  | first :: rest => joinSep " " (msgParts p t ++ [msgPayload p first rest])

/-- `#log(type, ...args)`: `none` when the call is gated out, otherwise
the stream written to and the exact string written. -/
def Pika.log (p : Pika) (t : LogType) (args : List LogArg) : Option (OutStream × String) :=
  if t.level < p.level then none
  else some (t.stream, filterSecrets p.secrets (buildMessage p t args) ++ "\n")

/-! ## Sample concrete instances used by witnesses and counterexamples -/

def amb0 : Ambient := ⟨none, none, none, some false, none⟩

def sampleLogger : Pika :=
  mkPika ⟨some "main", some Level.TRACE, some [], some false⟩ amb0

def infoLogger : Pika :=
  mkPika ⟨some "main", some Level.INFO, some [], some false⟩ amb0


/-! ## Helper lemmas about prefixes, infixes and the replacement scan -/

lemma isPrefixOfEq (l₁ l₂ : List Char) : l₁.isPrefixOf l₂ = true ↔ l₁ <+: l₂ := by
  exact List.isPrefixOf_iff_prefix

lemma infixOfPrefix {α : Type} {l₁ l₂ : List α} (h : l₁ <+: l₂) : l₁ <:+: l₂ := by
  rcases h with ⟨t, ht⟩
  exact ⟨[], t, by simp [ht]⟩

lemma infixOfSuffix {α : Type} {l₁ l₂ : List α} (h : l₁ <:+ l₂) : l₁ <:+: l₂ := by
  rcases h with ⟨s, hs⟩
  exact ⟨s, [], by simp [hs]⟩

lemma infixTrans {α : Type} {a b c : List α} (h1 : a <:+: b) (h2 : b <:+: c) :
    a <:+: c := by
  rcases h1 with ⟨s1, t1, e1⟩
  rcases h2 with ⟨s2, t2, e2⟩
  exact ⟨s2 ++ s1, t1 ++ t2, by rw [← e2, ← e1]; simp⟩

/-- An occurrence whose characters all avoid `P` cannot start inside a
leading copy of `P`. -/
lemma infixDropLeft {S P t : List Char} (hS : S ≠ []) (hd : ∀ c ∈ S, c ∉ P)
    (h : S <:+: P ++ t) : S <:+: t := by
  induction P with
  | nil => simpa using h
  | cons p ps ih =>
    rcases List.infix_cons_iff.mp (by simpa using h) with hpre | hinf
    · match S, hS with
      | s0 :: S', _ =>
        rcases List.cons_prefix_cons.mp hpre with ⟨rfl, -⟩
        exact absurd (List.mem_cons_self _ _) (hd s0 (List.mem_cons_self _ _))
    · exact ih (fun c hc hmem => hd c hc (List.mem_cons_of_mem _ hmem)) hinf

lemma replFuelNil (pat P : List Char) (fuel : Nat) : replFuel pat P fuel [] = [] := by
  cases fuel <;> rfl

lemma replFuelZero (pat P : List Char) (l : List Char) : replFuel pat P 0 l = l := by
  cases l <;> rfl

lemma replFuelCons (pat P : List Char) (fuel : Nat) (c : Char) (cs : List Char) :
    replFuel pat P (fuel + 1) (c :: cs) =
      if pat.isPrefixOf (c :: cs) then
        P ++ replFuel pat P fuel (cs.drop (pat.length - 1))
      else
        c :: replFuel pat P fuel cs := rfl

/-- A word avoiding the characters of `P` that is a prefix of a
replacement-scan result was already a prefix of the input. -/
lemma prefixThroughRepl {P : List Char} (hP : P ≠ []) :
    ∀ (fuel : Nat) (pat l T : List Char), T ≠ [] → (∀ c ∈ T, c ∉ P) →
      T <+: replFuel pat P fuel l → T <+: l := by
  intro fuel
  induction fuel with
  | zero =>
    intro pat l T hT hd h
    rwa [replFuelZero] at h
  | succ fuel ih =>
    intro pat l T hT hd h
    cases l with
    | nil =>
      rw [replFuelNil] at h
      exact absurd (List.prefix_nil.mp h) hT
    | cons c cs =>
      rw [replFuelCons] at h
      by_cases hm : pat.isPrefixOf (c :: cs)
      · rw [if_pos hm] at h
        match T, hT with
        | t0 :: T', _ =>
          match P, hP with
          | p0 :: P', _ =>
            rcases List.cons_prefix_cons.mp (by simpa using h) with ⟨rfl, -⟩
            exact absurd (List.mem_cons_self _ _) (hd t0 (List.mem_cons_self _ _))
      · rw [if_neg hm] at h
        match T, hT with
        | t0 :: T', _ =>
          rcases List.cons_prefix_cons.mp h with ⟨rfl, hpre⟩
          cases T' with
          | nil => exact List.cons_prefix_cons.mpr ⟨rfl, List.nil_prefix⟩
          | cons u us =>
            have hus : (u :: us) <+: cs :=
              ih pat cs (u :: us) (by simp)
                (fun x hx => hd x (List.mem_cons_of_mem _ hx)) hpre
            exact List.cons_prefix_cons.mpr ⟨rfl, hus⟩

/-- After one full replacement pass for `S` the result contains no
occurrence of `S`, provided `S` shares no character with the
replacement `P`. -/
lemma replKillsPat {P : List Char} (hP : P ≠ []) {S : List Char} (hS : S ≠ [])
    (hd : ∀ c ∈ S, c ∉ P) :
    ∀ (fuel : Nat) (l : List Char), l.length ≤ fuel →
      ¬ S <:+: replFuel S P fuel l := by
  intro fuel
  induction fuel with
  | zero =>
    intro l hl h
    cases l with
    | nil => rw [replFuelNil] at h; exact hS (List.infix_nil.mp h)
    | cons c cs => simp at hl
  | succ fuel ih =>
    intro l hl h
    cases l with
    | nil => rw [replFuelNil] at h; exact hS (List.infix_nil.mp h)
    | cons c cs =>
      rw [replFuelCons] at h
      by_cases hm : S.isPrefixOf (c :: cs)
      · rw [if_pos hm] at h
        have h2 := infixDropLeft hS hd h
        have hlen : (cs.drop (S.length - 1)).length ≤ fuel := by
          rw [List.length_drop]
          have : cs.length ≤ fuel := by simpa using hl
          omega
        exact ih _ hlen h2
      · rw [if_neg hm] at h
        rcases List.infix_cons_iff.mp h with hpre | hinf
        · match S, hS with
          | s0 :: S', _ =>
            rcases List.cons_prefix_cons.mp hpre with ⟨rfl, hpre'⟩
            cases S' with
            | nil =>
              exact hm ((isPrefixOfEq _ _).mpr
                (List.cons_prefix_cons.mpr ⟨rfl, List.nil_prefix⟩))
            | cons u us =>
              have hus : (u :: us) <+: cs :=
                prefixThroughRepl hP fuel (s0 :: u :: us) cs (u :: us) (by simp)
                  (fun x hx => hd x (List.mem_cons_of_mem _ hx)) hpre'
              exact hm ((isPrefixOfEq _ _).mpr
                (List.cons_prefix_cons.mpr ⟨rfl, hus⟩))
        · exact ih cs (by simp at hl; omega) hinf

/-- A replacement pass for any pattern cannot (re)introduce an
occurrence of a word `S` whose characters avoid `P`. -/
lemma replPreservesAbsence {P : List Char} (hP : P ≠ []) {S : List Char}
    (hS : S ≠ []) (hd : ∀ c ∈ S, c ∉ P) :
    ∀ (fuel : Nat) (pat l : List Char), l.length ≤ fuel → ¬ S <:+: l →
      ¬ S <:+: replFuel pat P fuel l := by
  intro fuel
  induction fuel with
  | zero =>
    intro pat l hl habs h
    rw [replFuelZero] at h
    exact habs h
  | succ fuel ih =>
    intro pat l hl habs h
    cases l with
    | nil => rw [replFuelNil] at h; exact hS (List.infix_nil.mp h)
    | cons c cs =>
      rw [replFuelCons] at h
      by_cases hm : pat.isPrefixOf (c :: cs)
      · rw [if_pos hm] at h
        have h2 := infixDropLeft hS hd h
        have habs2 : ¬ S <:+: cs.drop (pat.length - 1) := fun hx =>
          habs (infixTrans hx
            (infixOfSuffix ((List.drop_suffix _ _).trans (List.suffix_cons _ _))))
        have hlen : (cs.drop (pat.length - 1)).length ≤ fuel := by
          rw [List.length_drop]
          have : cs.length ≤ fuel := by simpa using hl
          omega
        exact ih pat _ hlen habs2 h2
      · rw [if_neg hm] at h
        rcases List.infix_cons_iff.mp h with hpre | hinf
        · match S, hS with
          | s0 :: S', _ =>
            rcases List.cons_prefix_cons.mp hpre with ⟨rfl, hpre'⟩
            cases S' with
            | nil =>
              exact habs (infixOfPrefix
                (List.cons_prefix_cons.mpr ⟨rfl, List.nil_prefix⟩))
            | cons u us =>
              have hus : (u :: us) <+: cs :=
                prefixThroughRepl hP fuel pat cs (u :: us) (by simp)
                  (fun x hx => hd x (List.mem_cons_of_mem _ hx)) hpre'
              exact habs (infixOfPrefix (List.cons_prefix_cons.mpr ⟨rfl, hus⟩))
        · have habs2 : ¬ S <:+: cs := fun hx =>
            habs (List.infix_cons_iff.mpr (Or.inr hx))
          exact ih pat cs (by simp at hl; omega) habs2 hinf

/-- A replacement pass either changes nothing or inserts a copy of `P`. -/
lemma replUnchangedOrIns {P : List Char} :
    ∀ (fuel : Nat) (pat l : List Char),
      replFuel pat P fuel l = l ∨ P <:+: replFuel pat P fuel l := by
  intro fuel
  induction fuel with
  | zero => intro pat l; left; exact replFuelZero _ _ _
  | succ fuel ih =>
    intro pat l
    cases l with
    | nil => left; exact replFuelNil _ _ _
    | cons c cs =>
      rw [replFuelCons]
      by_cases hm : pat.isPrefixOf (c :: cs)
      · rw [if_pos hm]
        right
        exact ⟨[], replFuel pat P fuel (cs.drop (pat.length - 1)), by simp⟩
      · rw [if_neg hm]
        rcases ih pat cs with heq | hins
        · left; rw [heq]
        · right; exact List.infix_cons_iff.mpr (Or.inr hins)

/-- A replacement pass for an absent pattern is the identity. -/
lemma replNoMatchId {P : List Char} :
    ∀ (fuel : Nat) (pat l : List Char), ¬ pat <:+: l →
      replFuel pat P fuel l = l := by
  intro fuel
  induction fuel with
  | zero => intro pat l _; exact replFuelZero _ _ _
  | succ fuel ih =>
    intro pat l habs
    cases l with
    | nil => exact replFuelNil _ _ _
    | cons c cs =>
      rw [replFuelCons]
      by_cases hm : pat.isPrefixOf (c :: cs)
      · exact absurd (infixOfPrefix ((isPrefixOfEq _ _).mp hm)) habs
      · rw [if_neg hm]
        rw [ih pat cs (fun hx => habs (List.infix_cons_iff.mpr (Or.inr hx)))]

/-! ## Redaction facts at the level of `filterSecrets` -/

lemma jsReplaceAllData {s pat : String} (h : pat.data ≠ []) (rep : String) :
    (jsReplaceAll s pat rep).data =
      replFuel pat.data rep.data s.data.length s.data := by
  rw [jsReplaceAll, if_neg h]

/-- The redaction step used by `#filterSecrets`. -/
def redactStep (sanitized secret : String) : String :=
  jsReplaceAll sanitized secret "[REDACTED]"

lemma filterSecretsEq (secrets : List String) (input : String)
    (h : secrets ≠ []) :
    filterSecrets secrets input = secrets.foldl redactStep input := by
  rw [filterSecrets, if_neg (by simpa using h)]
  rfl

lemma redactedNeNil : ("[REDACTED]" : String).data ≠ [] := by decide

/-- One redaction step cannot (re)introduce a word avoiding the
placeholder characters. -/
lemma redactStepAbsence {S : String} (hS : S.data ≠ [])
    (hd : ∀ c ∈ S.data, c ∉ ("[REDACTED]" : String).data)
    {cur : String} (habs : ¬ S.data <:+: cur.data) {sec : String}
    (hsec : sec.data ≠ []) :
    ¬ S.data <:+: (redactStep cur sec).data := by
  rw [redactStep, jsReplaceAllData hsec]
  exact replPreservesAbsence redactedNeNil hS hd _ _ _ le_rfl habs

lemma foldAbsence {S : String} (hS : S.data ≠ [])
    (hd : ∀ c ∈ S.data, c ∉ ("[REDACTED]" : String).data) :
    ∀ (l : List String), (∀ s ∈ l, s.data ≠ []) → ∀ cur : String,
      ¬ S.data <:+: cur.data → ¬ S.data <:+: (l.foldl redactStep cur).data := by
  intro l
  induction l with
  | nil => intro _ cur habs; exact habs
  | cons sec l ih =>
    intro hne cur habs
    rw [List.foldl_cons]
    exact ih (fun s hs => hne s (List.mem_cons_of_mem _ hs)) _
      (redactStepAbsence hS hd habs (hne sec (List.mem_cons_self _ _)))

/-- A redaction step either changes nothing or makes the placeholder
occur in the result. -/
lemma redactStepUnchangedOrIns (cur : String) {sec : String}
    (hsec : sec.data ≠ []) :
    (redactStep cur sec).data = cur.data ∨
      ("[REDACTED]" : String).data <:+: (redactStep cur sec).data := by
  rw [redactStep, jsReplaceAllData hsec]
  exact replUnchangedOrIns _ _ _

lemma foldKeepsPlaceholder :
    ∀ (l : List String), (∀ s ∈ l, s.data ≠ []) → ∀ cur : String,
      ("[REDACTED]" : String).data <:+: cur.data →
      ("[REDACTED]" : String).data <:+: (l.foldl redactStep cur).data := by
  intro l
  induction l with
  | nil => intro _ cur h; exact h
  | cons sec l ih =>
    intro hne cur h
    rw [List.foldl_cons]
    refine ih (fun s hs => hne s (List.mem_cons_of_mem _ hs)) _ ?_
    rcases redactStepUnchangedOrIns cur (hne sec (List.mem_cons_self _ _)) with
      heq | hins
    · rwa [heq]
    · exact hins

lemma foldInvariant {S : String} :
    ∀ (l : List String), (∀ s ∈ l, s.data ≠ []) → ∀ cur : String,
      (S.data <:+: cur.data ∨ ("[REDACTED]" : String).data <:+: cur.data) →
      (S.data <:+: (l.foldl redactStep cur).data ∨
        ("[REDACTED]" : String).data <:+: (l.foldl redactStep cur).data) := by
  intro l
  induction l with
  | nil => intro _ cur h; exact h
  | cons sec l ih =>
    intro hne cur h
    rw [List.foldl_cons]
    refine ih (fun s hs => hne s (List.mem_cons_of_mem _ hs)) _ ?_
    rcases redactStepUnchangedOrIns cur (hne sec (List.mem_cons_self _ _)) with
      heq | hins
    · rw [heq]; exact h
    · exact Or.inr hins

/-- Redaction removes every registered secret whose characters avoid the
placeholder, provided all registered secrets are non-empty. -/
lemma filterSecretsNoOccur {secrets : List String} {S T : String}
    (hmem : S ∈ secrets) (hne : ∀ s ∈ secrets, s.data ≠ [])
    (hd : ∀ c ∈ S.data, c ∉ ("[REDACTED]" : String).data) :
    ¬ S.data <:+: (filterSecrets secrets T).data := by
  obtain ⟨pre, post, rfl⟩ := List.append_of_mem hmem
  have hS : S.data ≠ [] := hne S hmem
  rw [filterSecretsEq _ _ (by simp), List.foldl_append, List.foldl_cons]
  have h0 : ¬ S.data <:+: (redactStep (pre.foldl redactStep T) S).data := by
    rw [redactStep, jsReplaceAllData hS]
    exact replKillsPat redactedNeNil hS hd _ _ le_rfl
  exact foldAbsence hS hd post
    (fun s hs => hne s (by simp [hs])) _ h0

/-- If such a secret occurred in the input, the redacted output contains
the placeholder. -/
lemma filterSecretsPlaceholder {secrets : List String} {S T : String}
    (hmem : S ∈ secrets) (hne : ∀ s ∈ secrets, s.data ≠ [])
    (hd : ∀ c ∈ S.data, c ∉ ("[REDACTED]" : String).data)
    (hocc : S.data <:+: T.data) :
    ("[REDACTED]" : String).data <:+: (filterSecrets secrets T).data := by
  obtain ⟨pre, post, rfl⟩ := List.append_of_mem hmem
  have hS : S.data ≠ [] := hne S hmem
  rw [filterSecretsEq _ _ (by simp), List.foldl_append, List.foldl_cons]
  have hinv := foldInvariant pre (fun s hs => hne s (by simp [hs])) T
    (Or.inl hocc)
  set cur := pre.foldl redactStep T with hcur
  have hafter : ("[REDACTED]" : String).data <:+: (redactStep cur S).data := by
    have hkill : ¬ S.data <:+: (redactStep cur S).data := by
      rw [redactStep, jsReplaceAllData hS]
      exact replKillsPat redactedNeNil hS hd _ _ le_rfl
    rcases hinv with hSin | hPin
    · rcases redactStepUnchangedOrIns cur hS with heq | hins
      · rw [heq] at hkill; exact absurd hSin hkill
      · exact hins
    · rcases redactStepUnchangedOrIns cur hS with heq | hins
      · rwa [heq]
      · exact hins
  exact foldKeepsPlaceholder post (fun s hs => hne s (by simp [hs])) _ hafter

/-- A redaction step for a secret absent from the input is the
identity. -/
lemma redactStepId {cur sec : String} (habs : ¬ sec.data <:+: cur.data) :
    redactStep cur sec = cur := by
  rw [redactStep, jsReplaceAll]
  by_cases hsec : sec.data = []
  · exact absurd (hsec ▸ (⟨[], cur.data, by simp⟩ : [] <:+: cur.data)) habs
  · rw [if_neg hsec, replNoMatchId _ _ _ habs]

lemma foldIdOnAbsent :
    ∀ (l : List String) (cur : String), (∀ s ∈ l, ¬ s.data <:+: cur.data) →
      l.foldl redactStep cur = cur := by
  intro l
  induction l with
  | nil => intro cur _; rfl
  | cons sec l ih =>
    intro cur h
    rw [List.foldl_cons, redactStepId (h sec (List.mem_cons_self _ _))]
    exact ih cur (fun s hs => h s (List.mem_cons_of_mem _ hs))

/-- Redaction is idempotent when every secret is non-empty and avoids
the placeholder characters. -/
lemma filterSecretsIdem {secrets : List String} {T : String}
    (hne : ∀ s ∈ secrets, s.data ≠ [])
    (hd : ∀ s ∈ secrets, ∀ c ∈ s.data, c ∉ ("[REDACTED]" : String).data) :
    filterSecrets secrets (filterSecrets secrets T) = filterSecrets secrets T := by
  cases secrets with
  | nil => simp [filterSecrets]
  | cons a l =>
    rw [filterSecretsEq _ _ (by simp)]
    exact foldIdOnAbsent _ _ (fun s hs => filterSecretsNoOccur hs hne (hd s hs))

/-! ## Facts about the composed line -/

lemma strExt {s t : String} (h : s.data = t.data) : s = t := by
  cases s
  cases t
  exact congrArg String.mk h

lemma buildMessageCons (p : Pika) (t : LogType) (first : LogArg)
    (rest : List LogArg) :
    buildMessage p t (first :: rest) =
      joinSep " " (msgParts p t ++ [msgPayload p first rest]) := rfl

lemma joinSepConsCons (sep x y : String) (ys : List String) :
    joinSep sep (x :: y :: ys) = x ++ sep ++ joinSep sep (y :: ys) := rfl

/-- The last part of a joined list is a suffix of the join. -/
lemma joinSepLastSuffix (sep : String) :
    ∀ (ps : List String) (x : String),
      x.data <:+ (joinSep sep (ps ++ [x])).data := by
  intro ps
  induction ps with
  | nil => intro x; exact List.suffix_refl _
  | cons p ps ih =>
    intro x
    cases hq : ps ++ [x] with
    | nil => simp at hq
    | cons y ys =>
      rw [List.cons_append, hq, joinSepConsCons, String.data_append]
      exact ((hq ▸ ih x).trans (List.suffix_append _ _))

/-! ## Claim theorems -/

/-- C1: for every configuration with minimum level L and every
descriptor with level D, a logging call performs the stream write iff
D ≥ L; at the boundary D = L the call writes, and D = L - 1 is
suppressed with no write (the gate in `#log` returns before any
formatting). -/
theorem pika_log_level_gate (p : Pika) (t : LogType) (args : List LogArg) :
    ((Pika.log p t args).isSome = true ↔ p.level ≤ t.level)
    ∧ (t.level = p.level → (Pika.log p t args).isSome = true)
    ∧ (t.level + 1 = p.level → Pika.log p t args = none) := by
  refine ⟨⟨fun h => ?_, fun h => ?_⟩, fun h => ?_, fun h => ?_⟩
  · by_contra hcon
    rw [Pika.log, if_pos (by omega)] at h
    simp at h
  · rw [Pika.log, if_neg (by omega)]
    rfl
  · rw [Pika.log, if_neg (by omega)]
    rfl
  · rw [Pika.log, if_pos (by omega)]

/-- C1 witness: with minimum level INFO, an info call (D = L) writes
and a debug call (D = L - 1) is suppressed. -/
theorem pika_log_level_gate_wit :
    (Pika.log infoLogger TYPES.info []).isSome = true
    ∧ Pika.log infoLogger TYPES.debug [] = none :=
  ⟨(pika_log_level_gate infoLogger TYPES.info []).2.1 (by decide),
   (pika_log_level_gate infoLogger TYPES.debug []).2.2 (by decide)⟩

/-- C2: every builder call (scope, level, secrets, clone) leaves the
receiver unchanged — all four configuration fields and any subsequent
logging call behave exactly as before the builder call — while the
returned instance is a fresh configuration carrying the change. -/
theorem pika_builders_immutable (p : Pika) (s : String) (lv : Nat)
    (names : List String) (ov : PikaOpts) (amb : Ambient) (t : LogType)
    (args : List LogArg) :
    ((p.scopeCall s amb).2 = p ∧ (p.levelCall lv amb).2 = p
      ∧ (p.secretsCall names amb).2 = p ∧ (p.cloneCall ov amb).2 = p)
    ∧ (Pika.log (p.scopeCall s amb).2 t args = Pika.log p t args
       ∧ Pika.log (p.levelCall lv amb).2 t args = Pika.log p t args
       ∧ Pika.log (p.secretsCall names amb).2 t args = Pika.log p t args
       ∧ Pika.log (p.cloneCall ov amb).2 t args = Pika.log p t args)
    ∧ ((p.scopeCall s amb).1.scope = s
       ∧ (p.scopeCall s amb).1.level = p.level
       ∧ (p.scopeCall s amb).1.secrets = p.secrets
       ∧ (p.scopeCall s amb).1.useColors = p.useColors
       ∧ (p.levelCall lv amb).1.level = lv
       ∧ (p.levelCall lv amb).1.scope = p.scope) :=
  ⟨⟨rfl, rfl, rfl, rfl⟩, ⟨rfl, rfl, rfl, rfl⟩, rfl, rfl, rfl, rfl, rfl, rfl⟩

/-- C3: `secrets(n1, ..., nk)` produces a configuration whose secret
list is the existing list followed by the new names in order — an
append, not a replacement, with duplicates preserved. -/
theorem pika_secrets_append (p : Pika) (names : List String) (amb : Ambient) :
    (p.secretsCall names amb).1.secrets = p.secrets ++ names
    ∧ ((p.secretsCall names amb).1.secrets).length
        = p.secrets.length + names.length := by
  refine ⟨rfl, ?_⟩
  show (p.secrets ++ names).length = _
  simp

/-- A concrete composed warn line containing the secret "RED". -/
def redLine : String :=
  buildMessage sampleLogger TYPES.warn [.prim "code RED alert"]

/-- C4 counterexample: "RED" is a registered secret of a non-empty
secret list and occurs in the composed line, yet the redacted output
still contains "RED" — the placeholder "[REDACTED]" reintroduces it. -/
theorem redaction_reintroduces_secret :
    (["RED"] : List String) ≠ []
    ∧ "RED".data <:+: redLine.data
    ∧ "RED".data <:+: (filterSecrets ["RED"] redLine).data :=
  ⟨by decide, by decide, by decide⟩

/-- C4 (amended): provided every registered secret is non-empty and the
secret S shares no character with the placeholder "[REDACTED]", the
redacted output of any composed line contains no occurrence of S, and
contains the placeholder whenever S occurred in the line; secrets are
applied in stored order, each pass replacing every non-overlapping
occurrence. -/
theorem redaction_removes_disjoint_secret (secrets : List String)
    (S T : String) (hmem : S ∈ secrets)
    (hne : ∀ s ∈ secrets, s.data ≠ [])
    (hd : ∀ c ∈ S.data, c ∉ ("[REDACTED]" : String).data) :
    ¬ S.data <:+: (filterSecrets secrets T).data
    ∧ (S.data <:+: T.data →
        ("[REDACTED]" : String).data <:+: (filterSecrets secrets T).data) :=
  ⟨filterSecretsNoOccur hmem hne hd,
   fun hocc => filterSecretsPlaceholder hmem hne hd hocc⟩

/-- The composed warn line of the README scenario. -/
def pwLine : String :=
  buildMessage sampleLogger TYPES.warn
    [.prim "Tried to log in admin account with password password123"]

set_option maxRecDepth 8192 in
/-- C4 witness: the README scenario — secret "password123" occurs in
the composed warn line; the redacted output contains "[REDACTED]" and
not "password123". -/
theorem redaction_removes_disjoint_secret_wit :
    ("password123" ∈ (["password123"] : List String))
    ∧ "password123".data <:+: pwLine.data
    ∧ ¬ "password123".data <:+: (filterSecrets ["password123"] pwLine).data
    ∧ ("[REDACTED]" : String).data <:+:
        (filterSecrets ["password123"] pwLine).data := by
  have h := redaction_removes_disjoint_secret ["password123"] "password123"
    pwLine (by decide) (by decide) (by decide)
  exact ⟨by decide, by decide, h.1, h.2 (by decide)⟩

/-- C5 counterexample: redaction is not idempotent in general — the
secret "RED" occurs inside the placeholder, so a second application
mangles the output of the first. -/
theorem redaction_not_idempotent :
    filterSecrets ["RED"] (filterSecrets ["RED"] "RED") ≠
      filterSecrets ["RED"] "RED" := by decide

/-- C5 (amended): redaction is idempotent provided every registered
secret is non-empty and shares no character with the placeholder
"[REDACTED]". -/
theorem redaction_idempotent_disjoint (secrets : List String) (T : String)
    (hne : ∀ s ∈ secrets, s.data ≠ [])
    (hd : ∀ s ∈ secrets, ∀ c ∈ s.data, c ∉ ("[REDACTED]" : String).data) :
    filterSecrets secrets (filterSecrets secrets T) =
      filterSecrets secrets T :=
  filterSecretsIdem hne hd

/-- C5 witness: idempotence on the README scenario line. -/
theorem redaction_idempotent_disjoint_wit :
    (∀ s ∈ (["password123"] : List String), s.data ≠ [])
    ∧ filterSecrets ["password123"] (filterSecrets ["password123"] pwLine) =
        filterSecrets ["password123"] pwLine :=
  ⟨by decide,
   redaction_idempotent_disjoint ["password123"] pwLine (by decide) (by decide)⟩

set_option maxRecDepth 8192 in
/-- C6 (code bug): with colour output disabled (`useColors = false`)
the composed line still contains the ANSI escape introducer, because
`#getMeta` wraps the scope tag and pointer glyph with `colour(...)`
directly instead of routing them through `#applyColor`. -/
theorem meta_coloured_despite_disabled :
    infoLogger.useColors = false
    ∧ "\x1b[".data <:+: (buildMessage infoLogger TYPES.warn [.prim "hi"]).data
    ∧ getMeta infoLogger =
        [colour (formatScope infoLogger) [Colour.GREY],
         colour Figure.POINTER_SMALL [Colour.GREY]] :=
  ⟨rfl, by decide, rfl⟩

set_option maxRecDepth 8192 in
/-- C7: a plain-object first argument renders as key = value pairs
joined by ", ": each value is its canonical JSON text (strings stay
quoted, nested objects render braced, never as "[object Object]"), the
rendered pairs appear inside the composed line, and the debug scenario
produces the expected fields. -/
theorem object_payload_rendering (p : Pika) (t : LogType)
    (fs : List (String × JValue)) (rest : List LogArg)
    (k1 k2 : String) (v1 v2 : JValue) (s : String)
    (gs : List (String × JValue)) :
    (formatObject fs).data <:+: (buildMessage p t (.object fs :: rest)).data
    ∧ formatObject [(k1, v1), (k2, v2)] =
        k1 ++ " = " ++ jsonStringify v1 ++ ", " ++ k2 ++ " = " ++ jsonStringify v2
    ∧ jsonStringify (.str s) = "\"" ++ String.join (s.data.map jsonEscapeChar) ++ "\""
    ∧ jsonStringify (.obj gs) = "\x7b" ++ jsonFields gs ++ "\x7d"
    ∧ jsonStringify (.obj gs) ≠ "[object Object]"
    ∧ "endpoint = \"/users/profile\"".data <:+:
        (buildMessage sampleLogger TYPES.debug
          [.object [("endpoint", .str "/users/profile"),
                    ("responseTime", .str "700ms")]]).data
    ∧ "responseTime = \"700ms\"".data <:+:
        (buildMessage sampleLogger TYPES.debug
          [.object [("endpoint", .str "/users/profile"),
                    ("responseTime", .str "700ms")]]).data := by
  refine ⟨?_, ?_, rfl, rfl, ?_, by decide, by decide⟩
  · rw [buildMessageCons]
    exact infixOfSuffix (joinSepLastSuffix " " (msgParts p t) _)
  · apply strExt
    simp [formatObject, joinSep, String.data_append]
  · intro hcon
    have : (jsonStringify (.obj gs)).data = ("[object Object]" : String).data :=
      congrArg String.data hcon
    rw [show jsonStringify (.obj gs) = "\x7b" ++ jsonFields gs ++ "\x7d" from rfl]
      at this
    simp [String.data_append] at this

/-- The first line of a stack trace, per `stack.split("\n")`. -/
def stackHead (st : String) : String :=
  ⟨(splitChar '\n' st.data).headD []⟩

/-- The remaining lines of a stack trace. -/
def stackRest (st : String) : List String :=
  (splitChar '\n' st.data).tail.map (fun l => (⟨l⟩ : String))

/-- C8: an error-like first argument with a stack renders the first
stack line underlined on one line followed by the remaining lines in
the muted grey colour; without a stack (absent or empty) the payload
falls back to the bare message; the payload is non-empty whenever the
message is, and it is emitted inside the composed line. -/
theorem error_payload_rendering (p : Pika) (t : LogType) (e : JsError)
    (rest : List LogArg) :
    (e.stack = none → formatError p e = e.message)
    ∧ (e.stack = some "" → formatError p e = e.message)
    ∧ (∀ st, e.stack = some st → st ≠ "" →
        formatError p e =
          applyColor p (stackHead st) [Colour.UNDERLINE] ++ "\n" ++
            applyColor p (joinSep "\n" (stackRest st)) [Colour.GREY])
    ∧ (e.message ≠ "" → formatError p e ≠ "")
    ∧ (formatError p e).data <:+: (buildMessage p t (.err e :: rest)).data := by
  refine ⟨fun h => ?_, fun h => ?_, fun st h hne => ?_, fun hmsg => ?_, ?_⟩
  · simp [formatError, h]
  · simp [formatError, h]
  · simp only [formatError, h, if_neg hne]
    rfl
  · cases hst : e.stack with
    | none => simpa [formatError, hst] using hmsg
    | some st =>
      by_cases hse : st = ""
      · simpa [formatError, hst, hse] using hmsg
      · have hUnf : formatError p e =
            applyColor p (stackHead st) [Colour.UNDERLINE] ++ "\n" ++
              applyColor p (joinSep "\n" (stackRest st)) [Colour.GREY] := by
          simp only [formatError, hst, if_neg hse]
          rfl
        intro hcon
        rw [hUnf] at hcon
        have hdata := congrArg String.data hcon
        rw [String.data_append, String.data_append] at hdata
        simp [show ("\n" : String).data = ['\n'] from rfl] at hdata
  · rw [buildMessageCons]
    exact infixOfSuffix (joinSepLastSuffix " " (msgParts p t) _)

/-- The concrete error of the witness. -/
def errEx : JsError :=
  ⟨"Error", "boom", some "Error: boom\n    at main"⟩

/-- C8 witness: the theorem applied at a concrete error with a stack
and a concrete error without one. -/
theorem error_payload_rendering_wit :
    (("boom" : String) ≠ "")
    ∧ formatError infoLogger errEx ≠ ""
    ∧ formatError infoLogger errEx =
        applyColor infoLogger (stackHead "Error: boom\n    at main")
            [Colour.UNDERLINE] ++ "\n" ++
          applyColor infoLogger
            (joinSep "\n" (stackRest "Error: boom\n    at main")) [Colour.GREY]
    ∧ formatError infoLogger ⟨"Error", "boom", none⟩ = "boom" :=
  ⟨by decide,
   (error_payload_rendering infoLogger TYPES.error errEx []).2.2.2.1 (by decide),
   (error_payload_rendering infoLogger TYPES.error errEx []).2.2.1
     "Error: boom\n    at main" rfl (by decide),
   (error_payload_rendering infoLogger TYPES.error ⟨"Error", "boom", none⟩ []).1 rfl⟩

/-- C9: success, warn, trace, debug and info route to standard output
while error and fatal route to standard error, and every non-suppressed
call writes the redacted composed line with exactly one trailing
newline appended. -/
theorem stream_routing_and_newline (p : Pika) (t : LogType)
    (args : List LogArg) :
    (TYPES.success.stream = OutStream.stdout
     ∧ TYPES.warn.stream = OutStream.stdout
     ∧ TYPES.trace.stream = OutStream.stdout
     ∧ TYPES.debug.stream = OutStream.stdout
     ∧ TYPES.info.stream = OutStream.stdout
     ∧ TYPES.error.stream = OutStream.stderr
     ∧ TYPES.fatal.stream = OutStream.stderr)
    ∧ (p.level ≤ t.level →
        Pika.log p t args =
          some (t.stream,
            filterSecrets p.secrets (buildMessage p t args) ++ "\n")) := by
  refine ⟨⟨rfl, rfl, rfl, rfl, rfl, rfl, rfl⟩, fun h => ?_⟩
  rw [Pika.log, if_neg (by omega)]

/-- C9 witness: a non-suppressed warn call writes to stdout with one
trailing newline. -/
theorem stream_routing_and_newline_wit :
    infoLogger.level ≤ TYPES.warn.level
    ∧ Pika.log infoLogger TYPES.warn [.prim "hi"] =
        some (TYPES.warn.stream,
          filterSecrets infoLogger.secrets
            (buildMessage infoLogger TYPES.warn [.prim "hi"]) ++ "\n") :=
  ⟨by decide,
   (stream_routing_and_newline infoLogger TYPES.warn [.prim "hi"]).2 (by decide)⟩

/-- C10: when a disable-colour signal (NO_COLOR or NODE_DISABLE_COLORS)
is set, the colour default is false even if FORCE_COLOR is also set —
the disable signals take precedence — and the interactive-terminal
check is consulted only when none of the three signals is set. -/
theorem colour_env_precedence (nc nd fc : Option String)
    (tty tty2 : Option Bool) (cal cal2 : Option String) :
    ((jsTruthy nc || jsTruthy nd) = true →
      shouldUseColors ⟨nc, nd, fc, tty, cal⟩ = false)
    ∧ ((jsTruthy nc || jsTruthy nd || jsTruthy fc) = true →
      shouldUseColors ⟨nc, nd, fc, tty, cal⟩ =
        shouldUseColors ⟨nc, nd, fc, tty2, cal2⟩) := by
  constructor
  · intro h
    simp [shouldUseColors, h]
  · intro h
    rw [shouldUseColors, shouldUseColors]
    by_cases h1 : (jsTruthy nc || jsTruthy nd) = true
    · rw [if_pos h1, if_pos h1]
    · have h2 : jsTruthy fc = true := by
        cases hb : jsTruthy nc <;> cases hc : jsTruthy nd <;>
          cases hd : jsTruthy fc <;> simp_all
      rw [if_neg h1, if_neg h1, if_pos h2, if_pos h2]

/-- C10 witness: NO_COLOR and FORCE_COLOR both set, on a TTY — colours
stay disabled. -/
theorem colour_env_precedence_wit :
    (jsTruthy (some "1") || jsTruthy none) = true
    ∧ shouldUseColors ⟨some "1", none, some "1", some true, none⟩ = false :=
  ⟨by decide,
   (colour_env_precedence (some "1") none (some "1") (some true) (some false)
     none none).1 (by decide)⟩

set_option maxRecDepth 8192 in
/-- C7 witness: the theorem instantiated at the debug scenario. -/
theorem object_payload_rendering_wit :
    (formatObject [("endpoint", .str "/users/profile")]).data <:+:
      (buildMessage sampleLogger TYPES.debug
        [.object [("endpoint", .str "/users/profile")]]).data
    ∧ jsonStringify (.obj [("a", .str "b")]) ≠ "[object Object]" :=
  ⟨(object_payload_rendering sampleLogger TYPES.debug
      [("endpoint", .str "/users/profile")] [] "a" "b" (.str "b") (.str "b")
      "a" [("a", .str "b")]).1,
   (object_payload_rendering sampleLogger TYPES.debug
      [("endpoint", .str "/users/profile")] [] "a" "b" (.str "b") (.str "b")
      "a" [("a", .str "b")]).2.2.2.2.1⟩
